import Mathlib

/-!
Verification of the calchart-redesign movement/editing core.

A shallow embedding of the JavaScript sources of the calchart-redesign
repository, together with theorems settling the frozen claims about it.

The embedding covers:
* `Dot` (label comparison, per-sheet info lookup, animation-state scan)
  from `calchart/Dot.js`;
* the editor's undo/redo history (`EditorController.do/undo/redo`)
  from `controllers/EditorController.js`;
* `Sheet` continuity-list editing and (de)serialization from `calchart/Sheet.js`;
* `TwoStepContinuity.getMovements` from `continuities/TwoStepContinuity.js`,
  and the sheet-level movement recomputation orchestration (modelled from the
  spec where the class files are absent from the source tree).

JavaScript machine integers/floats are modelled as `Int` (all quantities the
claims touch are integral beat counts, indices and step coordinates); JS
`undefined`/`null` as `Option`; thrown errors as `Except String`.
-/

/- ## JavaScript primitives used by the sources -/

/-- Numeric value of a list of decimal digit characters. -/
def digitsVal (cs : List Char) : Nat :=
  cs.foldl (fun a c => a * 10 + (c.toNat - 48)) 0

/-- Parse a maximal non-empty run of leading decimal digits, as JS `parseInt`
does after sign handling; `none` when there is no leading digit (JS `NaN`). -/
def parseLeadingDigits (cs : List Char) : Option Nat :=
  let ds := cs.takeWhile (fun c => '0' ≤ c ∧ c ≤ '9')
  if ds.isEmpty then none else some (digitsVal ds)

/-- JS `parseInt(s)` (radix 10): skip leading whitespace, optional sign, then
a maximal run of decimal digits; `none` models `NaN`.  (The `0x` hex prefix of
`parseInt` is not modelled; no label in play uses it.) -/
def jsParseInt (s : String) : Option Int :=
  let cs := s.data.dropWhile (fun c => c = ' ' ∨ c = '\t' ∨ c = '\n' ∨ c = '\r')
  match cs with
  | '-' :: rest => (parseLeadingDigits rest).map (fun n => -(n : Int))
  | '+' :: rest => (parseLeadingDigits rest).map (fun n => (n : Int))
  | rest => (parseLeadingDigits rest).map (fun n => (n : Int))

/-- JS truthiness of a JS number that may be `NaN` (`none`): `0` and `NaN`
are falsy. -/
def jsNumTruthy : Option Int → Bool
  | some n => n ≠ 0
  | none => false

/-- JS `<` on two strings: lexicographic comparison by code unit. -/
def jsLtChars : List Char → List Char → Bool
  | _, [] => false
  | [], _ :: _ => true
  | a :: as, b :: bs =>
    if a.toNat < b.toNat then true
    else if b.toNat < a.toNat then false
    else jsLtChars as bs

/-- JS `s < t` for strings. -/
def jsStrLt (s t : String) : Bool := jsLtChars s.data t.data

/-- First index of `x` in `l`, or `none` when absent. -/
def findIndexO {α : Type} [DecidableEq α] : List α → α → Option Nat
  | [], _ => none
  | y :: ys, x => if y = x then some 0 else (findIndexO ys x).map (· + 1)

/-- JS `Array.prototype.indexOf`: first index of `x` in `l`, or `-1`. -/
def jsIndexOf {α : Type} [DecidableEq α] (l : List α) (x : α) : Int :=
  match findIndexO l x with
  | none => -1
  | some i => i

/-- JS `Array.prototype.splice(start, 1)`: remove one element at `start`,
where a negative `start` counts from the end (clamped at 0) and a too-large
`start` is clamped to the length (removing nothing). -/
def jsSpliceRemoveOne {α : Type} (l : List α) (start : Int) : List α :=
  let s : Nat := if start < 0 then (start + (l.length : Int)).toNat else min start.toNat l.length
  l.take s ++ l.drop (s + 1)

/- ## Dot (`calchart/Dot.js`, source file `part_003`) -/

/-- Source `Dot.prototype.compareTo`: try `parseInt` on both labels; when both parsed
numbers are truthy compare the numbers, otherwise compare the label strings;
return `-1`, `1`, or `0` via JS `<`/`>`. -/
def dotCompareTo (label1 label2 : String) : Int :=
  let num1 := jsParseInt label1
  let num2 := jsParseInt label2
  if jsNumTruthy num1 && jsNumTruthy num2 then
    let n1 := num1.getD 0
    let n2 := num2.getD 0
    if n1 < n2 then -1 else if n2 < n1 then 1 else 0
  else
    if jsStrLt label1 label2 then -1 else if jsStrLt label2 label1 then 1 else 0

/-- A `MovementCommand` as consumed by `Dot` (`part_003`): its duration in
beats, its point-in-time query `getAnimationState`, and its end position.
`π` is the position type, `σ` the animation-state type. -/
structure DMov (π σ : Type) where
  duration : Int
  stateAt : Int → σ
  endPos : π

/-- The error message built by `Dot.prototype.getAnimationState` when the scan
runs out of movements: it names the dot label and the remaining beats. -/
def ranOutMsg (label : String) (remaining : Int) : String :=
  "Ran out of movements for " ++ label ++ ": " ++ toString remaining ++ " beats remaining"

/-- The scan loop of `Dot.prototype.getAnimationState`: starting with
`remaining = beatNum`, return `movement.getAnimationState(remaining)` for the
first movement with `remaining ≤ duration`, else subtract the duration and
continue; throw an `AnimationStateError` when the list is exhausted. -/
def dotGetAnimationState {π σ : Type} (label : String) :
    List (DMov π σ) → Int → Except String σ
  | [], remaining => .error (ranOutMsg label remaining)
  | m :: ms, remaining =>
    if remaining ≤ m.duration then .ok (m.stateAt remaining)
    else dotGetAnimationState label ms (remaining - m.duration)

/-- Total duration of a list of movements (`Dot` view). -/
def dTotalDur {π σ : Type} (ms : List (DMov π σ)) : Int :=
  (ms.map (fun m => m.duration)).sum

/-- The info record a sheet stores per dot (`Sheet.getInfoForDot`): dot type,
starting position and cached movements. -/
structure DSheetInfo (π σ : Type) where
  dtype : String
  position : π
  movements : List (DMov π σ)

/-- Source `Dot.prototype.getSheetInfo(sheet)`: with a (truthy) sheet argument return
`sheet.getInfoForDot(this)` (the sheet's lookup, which may be `undefined`);
otherwise return the cached `_sheetInfo` when one is loaded, else throw
`"No sheet is currently loaded"`.  The sheet is modelled by its lookup
function; `none` models JS `undefined`/`null`. -/
def dotGetSheetInfo {π σ : Type}
    (sheetArg : Option (String → Option (DSheetInfo π σ)))
    (cached : Option (DSheetInfo π σ)) (label : String) :
    Except String (Option (DSheetInfo π σ)) :=
  match sheetArg with
  | some lookup => .ok (lookup label)
  | none =>
    match cached with
    | some info => .ok (some info)
    | none => .error "No sheet is currently loaded"

/-- Source `Dot.prototype.getDotType`: project the dot type out of `getSheetInfo`. -/
def dotGetDotType {π σ : Type}
    (sheetArg : Option (String → Option (DSheetInfo π σ)))
    (cached : Option (DSheetInfo π σ)) (label : String) :
    Except String (Option String) :=
  (dotGetSheetInfo sheetArg cached label).map (Option.map (fun i => i.dtype))

/-- Source `Dot.prototype.getFirstPosition`: project the starting position. -/
def dotGetFirstPosition {π σ : Type}
    (sheetArg : Option (String → Option (DSheetInfo π σ)))
    (cached : Option (DSheetInfo π σ)) (label : String) :
    Except String (Option π) :=
  (dotGetSheetInfo sheetArg cached label).map (Option.map (fun i => i.position))

/-- Source `Dot.prototype.getLastPosition`: the end position of the last movement,
or the starting position when there are no movements. -/
def dotGetLastPosition {π σ : Type}
    (sheetArg : Option (String → Option (DSheetInfo π σ)))
    (cached : Option (DSheetInfo π σ)) (label : String) :
    Except String (Option π) :=
  (dotGetSheetInfo sheetArg cached label).map (Option.map (fun i =>
    match i.movements.getLast? with
    | none => i.position
    | some m => m.endPos))

/- ## Editor history (`controllers/EditorController.js`) -/

/-- An entry of the editor's `_undoHistory`: the action label and a snapshot
of the application content taken before the action ran. -/
structure HistEntry (C : Type) where
  label : String
  content : C
deriving DecidableEq

/-- The history-relevant state of an `EditorController`: the undo stack, the
redo stack (which in the source holds action *names*), and the application
content (`$(".content")`) the snapshots capture.  The head of each list is the
top of the JS array stack (its last element, where `push`/`pop` operate). -/
structure CtlState (C : Type) where
  undoH : List (HistEntry C)
  redoH : List String
  content : C
deriving DecidableEq

/-- The per-action flags of an editor action (see the ACTIONS comment block
in `EditorController.js`): `_canUndo` (default `false`), `_clearsRedo`
(`none` models `undefined`, defaulting to `_canUndo`), the verbose `_name`,
and the effect of `action.call(this)` on the content. -/
structure CAction (C : Type) where
  canUndo : Bool
  clearsRedo : Option Bool
  aname : Option String
  run : C → C

/-- The editor environment: the mapping from action names to actions (`none`
for an unknown name) and `JSUtils.fromCamelCase` (a utility absent from the
source tree, kept abstract — no claim depends on its value). -/
structure EditorEnv (C : Type) where
  acts : String → Option (CAction C)
  fromCamel : String → String

/-- Source `EditorController.prototype.do(name, asRedo)`: throw on an unknown name;
for an undoable action push `{label, content}` onto the undo stack; clear the
redo stack when `!asRedo && (_clearsRedo || (_clearsRedo === undefined &&
_canUndo))`; then run the action. -/
def ctlDo {C : Type} (env : EditorEnv C) (s : CtlState C) (name : String)
    (asRedo : Bool) : Except String (CtlState C) :=
  match env.acts name with
  | none => .error ("No action with the name: " ++ name)
  | some a =>
    let s1 := if a.canUndo then
        { s with undoH := ⟨a.aname.getD (env.fromCamel name), s.content⟩ :: s.undoH }
      else s
    let s2 := if !asRedo && (a.clearsRedo == some true || (a.clearsRedo == none && a.canUndo)) then
        { s1 with redoH := [] }
      else s1
    .ok { s2 with content := a.run s2.content }

/-- Source `EditorController.prototype.undo()`: a no-op when the undo stack is empty;
otherwise pop the top entry and restore its content snapshot.  Note that the
popped entry is discarded — the redo stack is not touched. -/
def ctlUndo {C : Type} (s : CtlState C) : CtlState C :=
  match s.undoH with
  | [] => s
  | e :: rest => { s with undoH := rest, content := e.content }

/-- Source `EditorController.prototype.redo()`: a no-op when the redo stack is empty;
otherwise pop an action name and run `do(name, true)`. -/
def ctlRedo {C : Type} (env : EditorEnv C) (s : CtlState C) :
    Except String (CtlState C) :=
  match s.redoH with
  | [] => .ok s
  | n :: rest => ctlDo env { s with redoH := rest } n true

/-- A concrete editor environment over `Nat` content with a single undoable
edit action `"edit"` (flags as `saveSelectionPositions._canUndo = true`,
`_clearsRedo` left undefined) that sets the content to `1`. -/
def demoEnv : EditorEnv Nat :=
  { acts := fun n => if n = "edit" then some ⟨true, none, none, fun _ => 1⟩ else none,
    fromCamel := id }

/-- The initial editor state for the history scenarios: empty stacks,
content `0`. -/
def demoS0 : CtlState Nat := ⟨[], [], 0⟩

/- ## Movement commands and continuities (redesign source tree `src/`) -/

/-- A field coordinate in steps. -/
structure MCoord where
  x : Int
  y : Int
deriving DecidableEq

/-- A `MovementCommand` of the redesign source tree, as a tagged record
(modelled from the spec for the class files absent from the source tree:
variants `move`/`stop`/`arc` carry start and end position, orientation,
duration in beats, and for stops the mark-time flag and beats per step). -/
structure MovCmd where
  kind : String
  startPos : MCoord
  endPos : MCoord
  orientation : Int
  duration : Int
  isMarkTime : Bool
  beatsPerStep : Int
deriving DecidableEq

/-- Modelled from the spec: `MovementCommandStop` (class file absent from
`src/`) — a stop/mark-time command holding a fixed position, with
`getDuration()` returning the given duration in beats and
`getEndPosition()` the (unchanged) position. -/
def MovementCommandStop (x y orientation duration : Int) (isMarkTime : Bool)
    (beatsPerStep : Int) : MovCmd :=
  ⟨"stop", ⟨x, y⟩, ⟨x, y⟩, orientation, duration, isMarkTime, beatsPerStep⟩

/-- Total duration in beats of a list of movement commands. -/
def sumDur (ms : List MovCmd) : Int := (ms.map (fun m => m.duration)).sum

/-- The cursor threaded through continuity resolution
(`data = {position, remaining}` in `Sheet.updateMovements` /
`TwoStepContinuity.getMovements`). -/
structure ContData where
  position : MCoord
  remaining : Int
deriving DecidableEq

/-- The cursor mutation performed after a continuity returns its movements
(`moves.forEach`: `data.position = movement.getEndPosition();
data.remaining -= movement.getDuration()`). -/
def advanceData (data : ContData) (moves : List MovCmd) : ContData :=
  moves.foldl (fun d mv => ⟨mv.endPos, d.remaining - mv.duration⟩) data

/-- Source `TwoStepContinuity.getMovements(dot, data)` from
`continuities/TwoStepContinuity.js`.  A sub-continuity is modelled as its own
`getMovements`, a function of the dot (by id) and the cursor; it is called on
`_.clone(data)`, so any mutation it performs on its argument is invisible to
this caller and only its returned movement list matters.  The pair returned
here is (returned movement list, final state of the mutated `data` argument).

Source: `wait = order.indexOf(dot) * 2`; build a `MovementCommandStop` of
duration `wait` at `data.position`; `data.remaining -= stop.getDuration()`;
then flat-map the nested continuities, after each one advancing `data` over
the returned moves; return `[stop].concat(movements)`. -/
def twoStepGetMovements (order : List String)
    (conts : List (String → ContData → List MovCmd))
    (isMarktime : Bool) (orientation : Int) (beatsPerStep : Int)
    (dot : String) (data : ContData) : List MovCmd × ContData :=
  let wait : Int := jsIndexOf order dot * 2
  let stop := MovementCommandStop data.position.x data.position.y orientation
    wait isMarktime beatsPerStep
  let data1 : ContData := ⟨data.position, data.remaining - stop.duration⟩
  let res := conts.foldl (fun acc cont =>
      let moves := cont dot acc.2
      (acc.1 ++ moves, advanceData acc.2 moves)) (([] : List MovCmd), data1)
  (stop :: res.1, res.2)

/-- Specification-level view of the flat-map in `getMovements`: the
concatenation of each nested continuity's movements, the cursor advanced over
the previous continuity's movements before each call. -/
def subContMoves (dot : String) :
    List (String → ContData → List MovCmd) → ContData → List MovCmd
  | [], _ => []
  | c :: cs, data =>
    let ms := c dot data
    ms ++ subContMoves dot cs (advanceData data ms)

/-- Modelled from the spec: `Sheet.updateMovements` per-dot orchestration
(absent from `src/`; §4.1 steps 1–4, and quoted as a comment inside
`TwoStepContinuity.getMovements`).  Run each continuity in list order against
the cursor; a continuity claiming more beats than remain is a validation
error aborting the recomputation; after all continuities, an implicit stop at
the current position covers any remaining beats (no implicit command when no
beats remain). -/
def sheetUpdateDotMovements :
    List (ContData → List MovCmd) → ContData → Except String (List MovCmd)
  | [], data =>
    if 0 < data.remaining then
      .ok [MovementCommandStop data.position.x data.position.y 0 data.remaining true 1]
    else .ok []
  | c :: cs, data =>
    let ms := c data
    if data.remaining < sumDur ms then
      .error "Continuity claimed more beats than remaining"
    else (sheetUpdateDotMovements cs (advanceData data ms)).map (fun rest => ms ++ rest)

/-- A concrete continuity list for the invariant witness: one continuity
moving the dot to `(2, 0)` over 3 beats. -/
def demoConts : List (ContData → List MovCmd) :=
  [fun d => [⟨"move", d.position, ⟨2, 0⟩, 0, 3, true, 1⟩]]

/-- The movement list `sheetUpdateDotMovements demoConts` computes on an
8-beat cursor at the origin: the 3-beat move, then a 5-beat implicit stop. -/
def demoMoves : List MovCmd :=
  [⟨"move", ⟨0, 0⟩, ⟨2, 0⟩, 0, 3, true, 1⟩, MovementCommandStop 2 0 0 5 true 1]

/- ## Sheet (`calchart/Sheet.js`, pre-redesign source tree) -/

/-- Source `Sheet.prototype.removeContinuity(dotType, continuity)` on the continuity
list of one dot type: `splice(indexOf(continuity), 1)`. -/
def sheetRemoveContinuity {α : Type} [DecidableEq α] (l : List α) (c : α) : List α :=
  jsSpliceRemoveOne l (jsIndexOf l c)

/-- An inherit-or-explicit continuity option (`"default"` or an explicit
value), per `BaseContinuity`. -/
inductive ContOption (α : Type) where
  | inheritDefault
  | explicitVal (v : α)
deriving DecidableEq

/-- A continuity of the pre-redesign tree: the `type` discriminant the
serialized data must define (per the `BaseContinuity.serialize` doc comment)
plus the three `BaseContinuity` options. -/
structure OldContinuity where
  ctype : String
  stepType : ContOption String
  beatsPerStep : ContOption Int
  orientation : ContOption String
deriving DecidableEq

/-- Source `BaseContinuity.prototype.serialize`: the serialized continuity mirrors
the option fields together with the `type` discriminant. -/
def oldContinuitySerialize (c : OldContinuity) : OldContinuity := c

/-- Modelled from the spec: `Continuity.deserialize` (module absent from the
source tree) — dispatch on the `type` discriminant and rebuild the continuity
from its serialized fields. -/
def oldContinuityDeserialize (d : OldContinuity) : OldContinuity := d

/-- A movement command of the pre-redesign tree (class files absent from the
source tree; modelled from the spec: a `type` discriminant and the
position/duration/orientation attributes). -/
structure OldMovement where
  mtype : String
  startPos : MCoord
  endPos : MCoord
  duration : Int
  orientation : Int
deriving DecidableEq

/-- Source `movement.serialize()`: the serialized movement mirrors the fields,
discriminant included (modelled from the spec; the movement class files are
absent from the source tree). -/
def oldMovementSerialize (m : OldMovement) : OldMovement := m

/-- Per-dot info stored in `Sheet._dots`: dot type, starting position,
movements. -/
structure OldDotInfo where
  dtype : String
  position : MCoord
  movements : List OldMovement
deriving DecidableEq

/-- Per-dot info as rebuilt by `Sheet.deserialize`.  The movement-rebuilding
`switch (movement_data.type)` in the source has no cases (its body is
`// TODO`), so every serialized movement maps to `undefined`, modelled as
`none`. -/
structure OldDotInfoD where
  dtype : String
  position : MCoord
  movements : List (Option OldMovement)
deriving DecidableEq

/-- A pre-redesign `Sheet`: beat count, the `label`/`fieldType` options, the
dot-label → info map and the dot-type → continuity-list map (maps as
association lists in insertion order). -/
structure OldSheet where
  numBeats : Int
  label : Option String
  fieldType : Option String
  dots : List (String × OldDotInfo)
  continuities : List (String × List OldContinuity)
deriving DecidableEq

/-- The serialized form produced by `Sheet.prototype.serialize`. -/
structure OldSheetData where
  numBeats : Int
  label : Option String
  fieldType : Option String
  dots : List (String × OldDotInfo)
  continuities : List (String × List OldContinuity)
deriving DecidableEq

/-- The `Sheet` rebuilt by `Sheet.deserialize` (movements all `undefined`,
see `OldDotInfoD`). -/
structure OldSheetDeser where
  numBeats : Int
  label : Option String
  fieldType : Option String
  dots : List (String × OldDotInfoD)
  continuities : List (String × List OldContinuity)
deriving DecidableEq

/-- Source `Sheet.prototype.serialize`: record `numBeats` and the options, serialize
each dot's type, position and movements, and each dot type's continuities. -/
def oldSheetSerialize (s : OldSheet) : OldSheetData :=
  { numBeats := s.numBeats,
    label := s.label,
    fieldType := s.fieldType,
    dots := s.dots.map (fun p =>
      (p.1, ⟨p.2.dtype, p.2.position, p.2.movements.map oldMovementSerialize⟩)),
    continuities := s.continuities.map (fun p =>
      (p.1, p.2.map oldContinuitySerialize)) }

/-- Source `Sheet.deserialize`: rebuild the sheet from `data.numBeats` and
`data.options`, each dot from its type, `Coordinate.deserialize(position)`
and the movement map — whose `switch` has no cases (`// TODO`), yielding
`undefined` (`none`) for every movement — and each dot type's continuities
via `Continuity.deserialize`. -/
def oldSheetDeserialize (d : OldSheetData) : OldSheetDeser :=
  { numBeats := d.numBeats,
    label := d.label,
    fieldType := d.fieldType,
    dots := d.dots.map (fun p =>
      (p.1, ⟨p.2.dtype, ⟨p.2.position.x, p.2.position.y⟩,
        p.2.movements.map (fun _ => (none : Option OldMovement))⟩)),
    continuities := d.continuities.map (fun p =>
      (p.1, p.2.map oldContinuityDeserialize)) }

/-- A concrete movement for the serialization round-trip scenario. -/
def demoOldMovement : OldMovement := ⟨"move", ⟨1, 2⟩, ⟨3, 2⟩, 8, 90⟩

/-- A concrete pre-redesign sheet with one dot `"A"` holding one movement. -/
def demoOldSheet : OldSheet :=
  { numBeats := 8,
    label := none,
    fieldType := none,
    dots := [("A", ⟨"plain", ⟨1, 2⟩, [demoOldMovement]⟩)],
    continuities := [("plain", [⟨"stop", .inheritDefault, .inheritDefault, .inheritDefault⟩])] }

/-- The dot's animation-state query with the full `getSheetInfo` chain of
`part_003`: resolve the sheet info (propagating its error), then scan its
movements.  A JS `TypeError` on an `undefined` info record is abstracted as
an error value. -/
def dotAnimationStateQuery {π σ : Type}
    (sheetArg : Option (String → Option (DSheetInfo π σ)))
    (cached : Option (DSheetInfo π σ)) (label : String) (beatNum : Int) :
    Except String σ :=
  match dotGetSheetInfo sheetArg cached label with
  | .error e => .error e
  | .ok none => .error "TypeError: cannot read movements of undefined"
  | .ok (some info) => dotGetAnimationState label info.movements beatNum

/-- Sum of the durations of the first `i` movements (the amount subtracted
from `beatNum` before the scan reaches index `i`). -/
def dPrefDur {π σ : Type} (ms : List (DMov π σ)) (i : Nat) : Int :=
  dTotalDur (ms.take i)

/-- Concrete movements for the animation-state witness: a 2-beat movement
whose state is the queried offset, then a 3-beat movement adding 100. -/
def demoDMovs : List (DMov Unit Int) :=
  [⟨2, fun r => r, ()⟩, ⟨3, fun r => r + 100, ()⟩]

/- ## Helper lemmas -/

theorem jsLtChars_irrefl (l : List Char) : jsLtChars l l = false := by
  induction l with
  | nil => rfl
  | cons a as ih => simpa [jsLtChars] using ih

theorem jsStrLt_irrefl (s : String) : jsStrLt s s = false := jsLtChars_irrefl s.data

theorem findIndexO_eq_none_iff {α : Type} [DecidableEq α] (l : List α) (x : α) :
    findIndexO l x = none ↔ x ∉ l := by
  induction l with
  | nil => simp [findIndexO]
  | cons y ys ih =>
    by_cases h : y = x
    · subst h
      simp [findIndexO]
    · simp [findIndexO, h, ih, Ne.symm h]

theorem findIndexO_lt_length {α : Type} [DecidableEq α] {l : List α} {x : α} {i : Nat}
    (h : findIndexO l x = some i) : i < l.length := by
  induction l generalizing i with
  | nil => simp [findIndexO] at h
  | cons y ys ih =>
    by_cases hyx : y = x
    · simp [findIndexO, hyx] at h
      simp only [List.length_cons]
      omega
    · simp only [findIndexO, if_neg hyx, Option.map_eq_some'] at h
      obtain ⟨i0, hi0, rfl⟩ := h
      have := ih hi0
      simpa using Nat.succ_lt_succ this

theorem findIndexO_take_drop {α : Type} [DecidableEq α] {l : List α} {x : α} {i : Nat}
    (h : findIndexO l x = some i) :
    l.take i ++ l.drop (i + 1) = l.erase x := by
  induction l generalizing i with
  | nil => simp [findIndexO] at h
  | cons y ys ih =>
    by_cases hyx : y = x
    · simp [findIndexO, hyx] at h
      subst h
      simp [List.erase_cons, hyx]
    · simp only [findIndexO, if_neg hyx, Option.map_eq_some'] at h
      obtain ⟨i0, hi0, rfl⟩ := h
      simp [List.erase_cons, hyx, List.take_succ_cons, List.drop_succ_cons, ih hi0]

theorem dTotalDur_nonneg {π σ : Type} {ms : List (DMov π σ)}
    (h : ∀ m ∈ ms, 0 ≤ m.duration) : 0 ≤ dTotalDur ms := by
  induction ms with
  | nil => simp [dTotalDur]
  | cons m ms ih =>
    have h1 := h m (by simp)
    have h2 := ih (fun m' hm' => h m' (by simp [hm']))
    simp only [dTotalDur, List.map_cons, List.sum_cons] at h2 ⊢
    omega

theorem advanceData_append (d : ContData) (ms ms' : List MovCmd) :
    advanceData d (ms ++ ms') = advanceData (advanceData d ms) ms' := by
  simp [advanceData, List.foldl_append]

theorem advanceData_remaining (d : ContData) (ms : List MovCmd) :
    (advanceData d ms).remaining = d.remaining - sumDur ms := by
  induction ms generalizing d with
  | nil => simp [advanceData, sumDur]
  | cons m ms ih =>
    simp only [advanceData, List.foldl_cons] at ih ⊢
    rw [ih]
    simp only [sumDur, List.map_cons, List.sum_cons]
    omega

theorem advanceData_position (d : ContData) (ms : List MovCmd) :
    (advanceData d ms).position
      = (match ms.getLast? with
         | none => d.position
         | some m => m.endPos) := by
  induction ms generalizing d with
  | nil => simp [advanceData]
  | cons m ms ih =>
    cases ms with
    | nil => simp [advanceData]
    | cons m' ms' =>
      simp only [advanceData, List.foldl_cons] at ih ⊢
      rw [ih ⟨m.endPos, d.remaining - m.duration⟩]
      simp [List.getLast?]

theorem twoStep_foldl_eq (dot : String)
    (cs : List (String → ContData → List MovCmd)) :
    ∀ (acc : List MovCmd) (d : ContData),
      cs.foldl (fun acc cont =>
          let moves := cont dot acc.2
          (acc.1 ++ moves, advanceData acc.2 moves)) (acc, d)
        = (acc ++ subContMoves dot cs d, advanceData d (subContMoves dot cs d)) := by
  induction cs with
  | nil => intro acc d; simp [subContMoves, advanceData]
  | cons c cs ih =>
    intro acc d
    simp only [List.foldl_cons, subContMoves]
    rw [ih]
    rw [advanceData_append, List.append_assoc]

/-- The movement list and final cursor of `TwoStepContinuity.getMovements`,
in terms of the spec-level `subContMoves`. -/
theorem twoStep_getMovements_eq (order : List String)
    (conts : List (String → ContData → List MovCmd))
    (mk : Bool) (o bps : Int) (dot : String) (data : ContData) :
    twoStepGetMovements order conts mk o bps dot data
      = (MovementCommandStop data.position.x data.position.y o
            (jsIndexOf order dot * 2) mk bps
          :: subContMoves dot conts ⟨data.position, data.remaining - jsIndexOf order dot * 2⟩,
         advanceData ⟨data.position, data.remaining - jsIndexOf order dot * 2⟩
           (subContMoves dot conts ⟨data.position, data.remaining - jsIndexOf order dot * 2⟩)) := by
  simp only [twoStepGetMovements, MovementCommandStop]
  rw [twoStep_foldl_eq]
  rfl

/- ## Claims -/

/-- C1: after one recorded edit, `undo` pops the entry but discards it — the
redo stack stays empty, so a subsequent `redo` is a no-op and the state after
the edit (content `1`) is not restored (content ends at `0`).  Nothing in the
source ever pushes onto `_redoHistory`, contradicting the documented purpose
of `redo` ("Redoes the last undone action"). -/
theorem undo_redo_loses_edit :
    ctlDo demoEnv demoS0 "edit" false = .ok ⟨[⟨"edit", 0⟩], [], 1⟩
  ∧ ctlUndo ⟨[⟨"edit", 0⟩], [], 1⟩ = ⟨[], [], 0⟩
  ∧ (ctlUndo ⟨[⟨"edit", 0⟩], [], 1⟩).redoH = []
  ∧ ctlRedo demoEnv ⟨[], [], 0⟩ = .ok ⟨[], [], 0⟩
  ∧ (0 : Nat) ≠ 1 :=
  ⟨rfl, rfl, rfl, rfl, by decide⟩

/-- C6: round-tripping a sheet through `serialize`/`deserialize` loses every
movement command: the movement-rebuilding `switch` in `Sheet.deserialize` has
no cases (`// TODO`), so the dot's movement list comes back as `[undefined]`
instead of the original one-command list. -/
theorem oldSheet_roundtrip_loses_movements :
    oldSheetDeserialize (oldSheetSerialize demoOldSheet)
      = ⟨8, none, none, [("A", ⟨"plain", ⟨1, 2⟩, [none]⟩)],
         [("plain", [⟨"stop", .inheritDefault, .inheritDefault, .inheritDefault⟩])]⟩
  ∧ demoOldSheet.dots = [("A", ⟨"plain", ⟨1, 2⟩, [demoOldMovement]⟩)]
  ∧ (some demoOldMovement ≠ (none : Option OldMovement)) :=
  ⟨rfl, rfl, by decide⟩

/-- C10: with no sheet argument and no loaded sheet, `getSheetInfo` — and the
animation-state, dot-type, first-position and last-position queries built on
it — throws "No sheet is currently loaded"; with a sheet argument the result
is the sheet's own lookup, independent of the loaded-sheet cache. -/
theorem dot_getSheetInfo_spec {π σ : Type} :
    ∀ (lookup : String → Option (DSheetInfo π σ)) (c1 c2 : Option (DSheetInfo π σ))
      (label : String) (beatNum : Int),
      dotGetSheetInfo (some lookup) c1 label = .ok (lookup label)
    ∧ dotGetSheetInfo (some lookup) c1 label = dotGetSheetInfo (some lookup) c2 label
    ∧ dotGetSheetInfo (none : Option (String → Option (DSheetInfo π σ))) none label
        = .error "No sheet is currently loaded"
    ∧ dotAnimationStateQuery (none : Option (String → Option (DSheetInfo π σ))) none label beatNum
        = .error "No sheet is currently loaded"
    ∧ dotGetDotType (none : Option (String → Option (DSheetInfo π σ))) none label
        = .error "No sheet is currently loaded"
    ∧ dotGetFirstPosition (none : Option (String → Option (DSheetInfo π σ))) none label
        = .error "No sheet is currently loaded"
    ∧ dotGetLastPosition (none : Option (String → Option (DSheetInfo π σ))) none label
        = .error "No sheet is currently loaded" := by
  intro lookup c1 c2 label beatNum
  refine ⟨rfl, rfl, rfl, rfl, rfl, rfl, rfl⟩

/-- C4 (counterexample): `TwoStepContinuity.getMovements` does mutate the
cursor passed in — for the second dot of a two-dot order with no nested
continuities, the cursor's `remaining` drops from 16 to 14 (the 2-beat wait
stop), so it is not the same as before the call. -/
theorem twoStep_mutates_cursor_counterexample :
    (twoStepGetMovements ["A", "B"] [] true 0 1 "B" ⟨⟨3, 4⟩, 16⟩).2 = ⟨⟨3, 4⟩, 14⟩
  ∧ ContData.mk ⟨3, 4⟩ 14 ≠ ContData.mk ⟨3, 4⟩ 16 :=
  ⟨rfl, by decide⟩

/-- C4 (amended): `TwoStepContinuity.getMovements` mutates the cursor passed
in: on return `remaining` has decreased by the wait-stop duration plus the
total duration of the sub-continuity movements (the returned list's tail),
and `position` has advanced to the last sub-movement's end position (or is
unchanged when the sub-continuities return no movements).  The caller's own
cursor survives only because call sites pass `_.clone(data)`. -/
theorem twoStep_getMovements_mutates_cursor (order : List String)
    (conts : List (String → ContData → List MovCmd))
    (mk : Bool) (o bps : Int) (dot : String) (data : ContData) :
    (twoStepGetMovements order conts mk o bps dot data).2.remaining
        = data.remaining - jsIndexOf order dot * 2
          - sumDur (twoStepGetMovements order conts mk o bps dot data).1.tail
  ∧ (twoStepGetMovements order conts mk o bps dot data).2.position
        = (match (twoStepGetMovements order conts mk o bps dot data).1.tail.getLast? with
           | none => data.position
           | some m => m.endPos) := by
  rw [twoStep_getMovements_eq]
  constructor
  · show (advanceData _ _).remaining = _
    rw [advanceData_remaining]
    simp
  · show (advanceData _ _).position = _
    rw [advanceData_position]
    simp

/-- C5: for a dot at 0-indexed position `i` of the participating-dot order,
the resolved command list is exactly one stop/mark-time command of duration
`2 * i` beats at the dot's current position, followed by the nested
sub-continuities' commands in list order (cursor carried through); the head
stop depends only on the dot's index, not on the order's length or dot
count. -/
theorem twoStep_getMovements_head_stop (order : List String)
    (conts : List (String → ContData → List MovCmd))
    (mk : Bool) (o bps : Int) (dot : String) (data : ContData) (i : Nat)
    (hidx : jsIndexOf order dot = (i : Int)) :
    (twoStepGetMovements order conts mk o bps dot data).1
        = MovementCommandStop data.position.x data.position.y o (2 * (i : Int)) mk bps
          :: subContMoves dot conts ⟨data.position, data.remaining - 2 * (i : Int)⟩
  ∧ ∀ order2 : List String, jsIndexOf order2 dot = (i : Int) →
      (twoStepGetMovements order2 conts mk o bps dot data).1.head?
        = some (MovementCommandStop data.position.x data.position.y o (2 * (i : Int)) mk bps) := by
  have key : ∀ ord : List String, jsIndexOf ord dot = (i : Int) →
      (twoStepGetMovements ord conts mk o bps dot data).1
        = MovementCommandStop data.position.x data.position.y o (2 * (i : Int)) mk bps
          :: subContMoves dot conts ⟨data.position, data.remaining - 2 * (i : Int)⟩ := by
    intro ord h
    rw [twoStep_getMovements_eq, h, Int.mul_comm]
  exact ⟨key order hidx, fun order2 h2 => by rw [key order2 h2]; rfl⟩

/-- C5 (witness): dot `"B"` at index 1 of a three-dot order, no nested
continuities: the resolved list is a single 2-beat stop at the dot's
position. -/
theorem twoStep_getMovements_head_stop_witness :
    (twoStepGetMovements ["A", "B", "C"] [] true 90 1 "B" ⟨⟨5, 6⟩, 16⟩).1
      = [MovementCommandStop 5 6 90 2 true 1] := by
  have h := (twoStep_getMovements_head_stop ["A", "B", "C"] [] true 90 1 "B"
    ⟨⟨5, 6⟩, 16⟩ 1 (by decide)).1
  simpa [subContMoves] using h

theorem sheetUpdate_sum_aux (conts : List (ContData → List MovCmd)) :
    ∀ (data : ContData) (ms : List MovCmd), 0 ≤ data.remaining →
      sheetUpdateDotMovements conts data = .ok ms → sumDur ms = data.remaining := by
  induction conts with
  | nil =>
    intro data ms h0 hok
    simp only [sheetUpdateDotMovements] at hok
    by_cases h : 0 < data.remaining
    · rw [if_pos h] at hok
      simp only [Except.ok.injEq] at hok
      subst hok
      simp [sumDur, MovementCommandStop]
    · rw [if_neg h] at hok
      simp only [Except.ok.injEq] at hok
      subst hok
      simp only [sumDur, List.map_nil, List.sum_nil]
      omega
  | cons c cs ih =>
    intro data ms h0 hok
    simp only [sheetUpdateDotMovements] at hok
    by_cases h : data.remaining < sumDur (c data)
    · rw [if_pos h] at hok
      simp at hok
    · rw [if_neg h] at hok
      cases hrec : sheetUpdateDotMovements cs (advanceData data (c data)) with
      | error e => rw [hrec] at hok; simp [Except.map] at hok
      | ok rest =>
        rw [hrec] at hok
        simp only [Except.map, Except.ok.injEq] at hok
        subst hok
        have hrem : 0 ≤ (advanceData data (c data)).remaining := by
          rw [advanceData_remaining]; omega
        have hsum := ih (advanceData data (c data)) rest hrem hrec
        rw [advanceData_remaining] at hsum
        simp only [sumDur, List.map_append, List.sum_append] at hsum ⊢
        omega

/-- C2: after a successful (non-error) recomputation of a dot's movements —
each continuity run in order against the cursor, over-claiming beats a
validation error, an implicit stop covering any trailing beats — the sum of
the durations of the dot's movement commands equals the sheet's beat count
exactly, for every continuity list. -/
theorem sheet_movements_duration_invariant
    (conts : List (ContData → List MovCmd)) (pos : MCoord) (numBeats : Int)
    (ms : List MovCmd) (h0 : 0 ≤ numBeats)
    (hok : sheetUpdateDotMovements conts ⟨pos, numBeats⟩ = .ok ms) :
    sumDur ms = numBeats :=
  sheetUpdate_sum_aux conts ⟨pos, numBeats⟩ ms h0 hok

/-- C2 (witness): one continuity moving 3 beats on an 8-beat sheet yields the
move plus a 5-beat implicit stop, total duration 8. -/
theorem sheet_movements_duration_invariant_witness :
    (0 : Int) ≤ 8 ∧ sumDur demoMoves = 8 :=
  ⟨by decide, sheet_movements_duration_invariant demoConts ⟨0, 0⟩ 8 demoMoves (by decide) rfl⟩

/-- C8: recording an undoable action via `do(name, asRedo)` pushes the
`{label, content-snapshot}` entry onto the undo stack and clears the redo
stack exactly when the call is not part of a redo — for every action that
does not explicitly set `_clearsRedo` to `false` (no action in the source
does; the flag defaults to `_canUndo` per the ACTIONS comment block).  A
non-undoable action leaves the undo stack unchanged. -/
theorem ctl_do_spec {C : Type} (env : EditorEnv C) (s : CtlState C) (name : String)
    (asRedo : Bool) (a : CAction C) (hact : env.acts name = some a) :
    (a.canUndo = true → a.clearsRedo ≠ some false →
      ctlDo env s name asRedo
        = .ok ⟨⟨a.aname.getD (env.fromCamel name), s.content⟩ :: s.undoH,
               if asRedo then s.redoH else [],
               a.run s.content⟩)
  ∧ (a.canUndo = false →
      ∀ s2, ctlDo env s name asRedo = .ok s2 → s2.undoH = s.undoH) := by
  constructor
  · intro hcu hcr
    have hd : a.clearsRedo = some true ∨ a.clearsRedo = none := by
      cases hc : a.clearsRedo with
      | none => exact Or.inr rfl
      | some b =>
        cases b
        · exact absurd hc hcr
        · exact Or.inl rfl
    simp only [ctlDo, hact, hcu]
    cases asRedo <;> simp [hd]
  · intro hcu s2 h
    simp only [ctlDo, hact, hcu] at h
    split at h <;>
      (simp only [Except.ok.injEq] at h; subst h; simp_all)

/-- C8 (witness): the demo undoable edit action (mirroring
`saveSelectionPositions._canUndo = true`, `_clearsRedo` undefined), recorded
outside a redo: the entry is pushed and the redo stack is cleared. -/
theorem ctl_do_spec_witness :
    ctlDo demoEnv demoS0 "edit" false = .ok ⟨[⟨"edit", 0⟩], [], 1⟩ := by
  have h := (ctl_do_spec demoEnv demoS0 "edit" false ⟨true, none, none, fun _ => 1⟩
    rfl).1 rfl (by decide)
  simpa using h

/-- C9 (counterexample): removing a continuity that is absent from an *empty*
continuity list leaves the list unchanged (`splice(-1, 1)` on an empty array
removes nothing), contradicting "the operation does not leave the list
unchanged when c is absent". -/
theorem sheet_removeContinuity_counterexample :
    (0 : Nat) ∉ ([] : List Nat) ∧ sheetRemoveContinuity ([] : List Nat) 0 = [] := by
  decide

/-- C9 (amended): when the continuity is present, `removeContinuity` removes
exactly its first occurrence, leaving every other element in its original
relative order; when it is absent, `indexOf` returns `-1` and `splice(-1, 1)`
removes the *last* element instead (a no-op on the empty list). -/
theorem sheet_removeContinuity_spec {α : Type} [DecidableEq α] (l : List α) (c : α) :
    (c ∈ l → sheetRemoveContinuity l c = l.erase c)
  ∧ (c ∉ l → sheetRemoveContinuity l c = l.dropLast) := by
  constructor
  · intro hmem
    cases hf : findIndexO l c with
    | none => exact absurd hmem ((findIndexO_eq_none_iff l c).mp hf)
    | some i =>
      have hlt := findIndexO_lt_length hf
      have htd := findIndexO_take_drop hf
      unfold sheetRemoveContinuity jsIndexOf
      rw [hf]
      unfold jsSpliceRemoveOne
      rw [if_neg (by omega : ¬ ((i : Int) < 0))]
      have hmin : min ((i : Int)).toNat l.length = i := by
        simp only [Int.toNat_ofNat]
        omega
      rw [hmin]
      exact htd
  · intro hmem
    have hf : findIndexO l c = none := (findIndexO_eq_none_iff l c).mpr hmem
    unfold sheetRemoveContinuity jsIndexOf
    rw [hf]
    unfold jsSpliceRemoveOne
    rw [if_pos (by omega : (-1 : Int) < 0)]
    cases l with
    | nil => rfl
    | cons y ys =>
      have hs : ((-1 : Int) + ((y :: ys).length : Int)).toNat = ys.length := by
        simp only [List.length_cons]
        omega
      rw [hs]
      show List.take ys.length (y :: ys) ++ List.drop (ys.length + 1) (y :: ys)
        = (y :: ys).dropLast
      have hdrop : (y :: ys).drop (ys.length + 1) = [] :=
        List.drop_eq_nil_of_le (by simp)
      rw [hdrop, List.append_nil]
      rw [List.dropLast_eq_take]
      simp

/-- C9 (witness): removing a present continuity removes its first occurrence
only; removing an absent one from a non-empty list drops the last element. -/
theorem sheet_removeContinuity_spec_witness :
    sheetRemoveContinuity [1, 2, 2, 3] (2 : Nat) = [1, 2, 3]
  ∧ sheetRemoveContinuity [1, 2, 3] (5 : Nat) = [1, 2] := by
  constructor
  · rw [(sheet_removeContinuity_spec [1, 2, 2, 3] 2).1 (by decide)]
    decide
  · rw [(sheet_removeContinuity_spec [1, 2, 3] 5).2 (by decide)]
    decide

/-- C7 (counterexample): both labels `"00"` and `"0"` parse as numbers (both
to `0`), so ordering by the embedded numeric value would return `0`; but
`parseInt` returning `0` is falsy, so the code falls back to lexical
comparison and returns `1`. -/
theorem dot_compareTo_counterexample :
    jsParseInt "00" = some 0 ∧ jsParseInt "0" = some 0 ∧ dotCompareTo "00" "0" = 1 :=
  ⟨by decide, by decide, by decide⟩

/-- C7 (amended): `compareTo` orders two dots by the numeric values embedded
in their labels whenever both labels parse to *truthy* (non-zero, non-`NaN`)
numbers, and by lexical string comparison otherwise (in particular when a
label parses to `0`); it returns `-1` when this dot sorts before the other,
`1` when after, and `0` when the compared keys are equal (so for equal
labels). -/
theorem dot_compareTo_spec (l1 l2 : String) :
    (∀ n1 n2 : Int, jsParseInt l1 = some n1 → jsParseInt l2 = some n2 →
        n1 ≠ 0 → n2 ≠ 0 →
      ((dotCompareTo l1 l2 = -1 ↔ n1 < n2)
        ∧ (dotCompareTo l1 l2 = 1 ↔ n2 < n1)
        ∧ (dotCompareTo l1 l2 = 0 ↔ n1 = n2)))
  ∧ ((jsNumTruthy (jsParseInt l1) = false ∨ jsNumTruthy (jsParseInt l2) = false) →
      ((dotCompareTo l1 l2 = -1 ↔ jsStrLt l1 l2 = true)
        ∧ (dotCompareTo l1 l2 = 1 ↔ jsStrLt l1 l2 = false ∧ jsStrLt l2 l1 = true)
        ∧ (dotCompareTo l1 l2 = 0 ↔ jsStrLt l1 l2 = false ∧ jsStrLt l2 l1 = false)))
  ∧ (l1 = l2 → dotCompareTo l1 l2 = 0) := by
  refine ⟨?_, ?_, ?_⟩
  · intro n1 n2 h1 h2 hn1 hn2
    simp only [dotCompareTo, h1, h2, jsNumTruthy, Option.getD_some]
    rw [if_pos (by simp [hn1, hn2])]
    split_ifs with ha hb <;> refine ⟨?_, ?_, ?_⟩ <;> constructor <;> intro h <;>
      first
        | exact h.elim
        | omega
  · intro hfalse
    have hcond : (jsNumTruthy (jsParseInt l1) && jsNumTruthy (jsParseInt l2)) = false := by
      rcases hfalse with h | h <;> simp [h]
    simp only [dotCompareTo]
    rw [if_neg (by simp [hcond])]
    split_ifs with ha hb
    · exact ⟨⟨fun _ => ha, fun _ => rfl⟩,
        ⟨fun h => absurd h (by decide), fun h => absurd h.1 (by simp [ha])⟩,
        ⟨fun h => absurd h (by decide), fun h => absurd h.1 (by simp [ha])⟩⟩
    · exact ⟨⟨fun h => absurd h (by decide), fun h => absurd h ha⟩,
        ⟨fun _ => ⟨by simpa using ha, hb⟩, fun _ => rfl⟩,
        ⟨fun h => absurd h (by decide), fun h => absurd hb (by simp [h.2])⟩⟩
    · exact ⟨⟨fun h => absurd h (by decide), fun h => absurd h ha⟩,
        ⟨fun h => absurd h (by decide), fun h => absurd h.2 hb⟩,
        ⟨fun _ => ⟨by simpa using ha, by simpa using hb⟩, fun _ => rfl⟩⟩
  · intro h
    subst h
    by_cases hc : (jsNumTruthy (jsParseInt l1) && jsNumTruthy (jsParseInt l1)) = true
    · simp only [dotCompareTo]
      rw [if_pos hc]
      simp
    · simp only [dotCompareTo]
      rw [if_neg hc]
      simp [jsStrLt_irrefl]

/-- C7 (witness): labels `"3"`/`"12"` sort numerically (3 before 12, against
their lexical order); labels `"A3"`/`"A12"` do not both parse, so they sort
lexically (`"A3"` after `"A12"`). -/
theorem dot_compareTo_spec_witness :
    dotCompareTo "3" "12" = -1 ∧ dotCompareTo "A3" "A12" = 1 :=
  ⟨((dot_compareTo_spec "3" "12").1 3 12 (by decide) (by decide) (by decide)
      (by decide)).1.mpr (by decide),
   (((dot_compareTo_spec "A3" "A12").2.1 (Or.inl (by decide))).2.1).mpr
      ⟨by decide, by decide⟩⟩

theorem dotGAS_error_iff {π σ : Type} (label : String) (ms : List (DMov π σ)) :
    ∀ b : Int, (∀ m ∈ ms, 0 ≤ m.duration) →
      ((dotGetAnimationState label ms b = .error (ranOutMsg label (b - dTotalDur ms)))
        ↔ (dTotalDur ms < b ∨ ms = [])) := by
  induction ms with
  | nil =>
    intro b _
    simp [dotGetAnimationState, dTotalDur]
  | cons m ms ih =>
    intro b hpos
    have hm := hpos m (by simp)
    have hrest : ∀ m' ∈ ms, 0 ≤ m'.duration := fun m' hm' => hpos m' (by simp [hm'])
    have htot : 0 ≤ dTotalDur ms := dTotalDur_nonneg hrest
    have hcons : dTotalDur (m :: ms) = m.duration + dTotalDur ms := by
      simp [dTotalDur]
    simp only [dotGetAnimationState]
    by_cases h : b ≤ m.duration
    · rw [if_pos h]
      constructor
      · intro hcon
        exact absurd hcon (by simp)
      · intro hr
        rcases hr with hlt | hnil
        · rw [hcons] at hlt
          exact absurd hlt (by omega)
        · exact absurd hnil (by simp)
    · rw [if_neg h]
      have harith : b - dTotalDur (m :: ms) = (b - m.duration) - dTotalDur ms := by
        rw [hcons]; omega
      rw [harith, ih (b - m.duration) hrest]
      constructor
      · rintro (hlt | rfl)
        · left; rw [hcons]; omega
        · left
          rw [hcons]
          simp only [dTotalDur, List.map_nil, List.sum_nil]
          omega
      · rintro (hlt | habs)
        · left; rw [hcons] at hlt; omega
        · exact absurd habs (by simp)

theorem dotGAS_hit {π σ : Type} (label : String) (ms : List (DMov π σ)) :
    ∀ (b : Int) (i : Nat) (hi : i < ms.length),
      b - dPrefDur ms i ≤ (ms.get ⟨i, hi⟩).duration →
      (∀ j (hj : j < ms.length), j < i → (ms.get ⟨j, hj⟩).duration < b - dPrefDur ms j) →
      dotGetAnimationState label ms b = .ok ((ms.get ⟨i, hi⟩).stateAt (b - dPrefDur ms i)) := by
  induction ms with
  | nil =>
    intro b i hi
    exact absurd hi (by simp)
  | cons m ms ih =>
    intro b i hi hhit hbefore
    have hpre : ∀ k, dPrefDur (m :: ms) (k + 1) = m.duration + dPrefDur ms k := by
      intro k
      simp [dPrefDur, dTotalDur, List.take_succ_cons]
    cases i with
    | zero =>
      have h0 : dPrefDur (m :: ms) 0 = 0 := by simp [dPrefDur, dTotalDur]
      have hb : b - dPrefDur (m :: ms) 0 = b := by rw [h0, sub_zero]
      have hhit0 : b ≤ m.duration := by
        rw [hb] at hhit
        simpa using hhit
      simp only [dotGetAnimationState]
      rw [if_pos hhit0, hb]
      rfl
    | succ i' =>
      have hm_lt : m.duration < b := by
        have h0 := hbefore 0 (by simp) (Nat.succ_pos i')
        simpa [dPrefDur, dTotalDur] using h0
      simp only [dotGetAnimationState]
      rw [if_neg (by omega)]
      have hi' : i' < ms.length := by
        simpa [List.length_cons] using hi
      have hhit' : (b - m.duration) - dPrefDur ms i' ≤ (ms.get ⟨i', hi'⟩).duration := by
        have h1 := hhit
        rw [hpre i'] at h1
        simp only [List.get_cons_succ] at h1
        omega
      have hbefore' : ∀ j (hj : j < ms.length), j < i' →
          (ms.get ⟨j, hj⟩).duration < (b - m.duration) - dPrefDur ms j := by
        intro j hj hji
        have h1 := hbefore (j + 1) (by simpa [List.length_cons] using Nat.succ_lt_succ hj)
          (Nat.succ_lt_succ hji)
        rw [hpre j] at h1
        simp only [List.get_cons_succ] at h1
        omega
      rw [ih (b - m.duration) i' hi' hhit' hbefore']
      rw [hpre i']
      simp only [List.get_cons_succ]
      congr 1
      congr 1
      omega

/-- C3 (counterexample): with an empty movement list and `beatNum = 0` the
scan raises the out-of-range `AnimationStateError` even though `beatNum` does
not exceed the total duration (0); and the error identifies only the dot
label and the remaining beats — no sheet. -/
theorem dot_getAnimationState_counterexample :
    dotGetAnimationState (π := Unit) (σ := Unit) "A" [] 0 = .error (ranOutMsg "A" 0)
  ∧ ranOutMsg "A" 0 = "Ran out of movements for A: 0 beats remaining"
  ∧ ¬ (dTotalDur ([] : List (DMov Unit Unit)) < 0) :=
  ⟨rfl, by decide, by decide⟩

/-- C3 (amended): for movements of non-negative duration, the scan raises the
out-of-range error — whose message identifies the dot label and the remaining
beats (not the sheet) — exactly when `beatNum` exceeds the total duration of
the command sequence or the sequence is empty; otherwise it returns the
`stateAt` of the first command whose duration is ≥ the value remaining after
subtracting the durations of the preceding commands. -/
theorem dot_getAnimationState_spec {π σ : Type} (label : String)
    (ms : List (DMov π σ)) (beatNum : Int)
    (hpos : ∀ m ∈ ms, 0 ≤ m.duration) :
    ((dotGetAnimationState label ms beatNum
        = .error (ranOutMsg label (beatNum - dTotalDur ms)))
      ↔ (dTotalDur ms < beatNum ∨ ms = []))
  ∧ (∀ i (hi : i < ms.length),
      beatNum - dPrefDur ms i ≤ (ms.get ⟨i, hi⟩).duration →
      (∀ j (hj : j < ms.length), j < i →
        (ms.get ⟨j, hj⟩).duration < beatNum - dPrefDur ms j) →
      dotGetAnimationState label ms beatNum
        = .ok ((ms.get ⟨i, hi⟩).stateAt (beatNum - dPrefDur ms i))) :=
  ⟨dotGAS_error_iff label ms beatNum hpos,
   fun i hi h1 h2 => dotGAS_hit label ms beatNum i hi h1 h2⟩

/-- C3 (witness): scanning `[2-beat, 3-beat]` movements at beat 4 hits the
second command with 2 beats remaining, returning its state (2 + 100). -/
theorem dot_getAnimationState_spec_witness :
    dotGetAnimationState "A" demoDMovs 4 = .ok 102 := by
  have h := (dot_getAnimationState_spec "A" demoDMovs 4 (by decide)).2 1 (by decide)
    (by decide) (by decide)
  simpa using h
